import Mathlib

/-!
Shallow embedding of the github-contribution-scraper repository
(`dateUtils.js`, `throttledPromiseAll.js`, `getGitHubContributions.js`,
`CONST.js`), used to check the natural-language specification against the
code.

Modelling conventions:
* Calendar days are modelled as integer day numbers; `daysFromCivil` maps a
  Gregorian date to its day number (days since 0000-03-01, the standard
  civil-calendar algorithm), so concrete dates in the claims can be written
  as genuine calendar dates.
* Timestamps are integer seconds; a timezone is a fixed offset in seconds
  (none of the checked claims depends on DST transitions).
* JavaScript strings are modelled as `List Char`; JavaScript objects keyed
  by strings are association lists with the update-in-place/append-last
  semantics of JS property assignment.
-/

/-- Day number of a Gregorian calendar date, as days since 0000-03-01,
via the standard civil-from-days algorithm (valid for `y ≥ 1`, `1 ≤ m ≤ 12`).
This plays the role of moment's internal instant arithmetic for whole days. -/
def daysFromCivil (y m d : Nat) : Nat :=
  let yy := if m ≤ 2 then y - 1 else y
  let era := yy / 400
  let yoe := yy % 400
  let mp := if 2 < m then m - 3 else m + 9
  let doy := (153 * mp + 2) / 5 + (d - 1)
  let doe := yoe * 365 + yoe / 4 - yoe / 100 + doy
  era * 146097 + doe

/-- moment's `.day()`: 0 = Sunday, …, 6 = Saturday.
(0000-03-01 was a Wednesday; the `+ 3` aligns Sunday with 0.) -/
def momentDay (dayNumber : Nat) : Nat := (dayNumber + 3) % 7

/-- Source: `dateUtils.js` `isWeekday`: `!(moment(date).day() % 6 === 0)`. -/
def isWeekday (dayNumber : Nat) : Bool := !(momentDay dayNumber % 6 == 0)

/-- The loop of `dateUtils.js` `enumerateDaysBetweenDates`:
`while (currDate.add(1, 'days').diff(lastDate) < 0) dates.push(currDate.clone())`.
`currDate` is mutated by `add` before the comparison, so the pushed values are
`start+1, start+2, …` while they remain strictly below `lastDate`. -/
def enumDaysLoop (curr last : Int) : List Int :=
  if curr + 1 < last then (curr + 1) :: enumDaysLoop (curr + 1) last else []
termination_by (last - curr).toNat
decreasing_by omega

/-- Source: `dateUtils.js` `enumerateDaysBetweenDates` on two valid dates,
with both inputs already truncated to their start-of-day day numbers. -/
def enumerateDaysBetweenDates (startDay endDay : Int) : List Int :=
  enumDaysLoop startDay endDay

/-- Source: `dateUtils.js` `enumerateDaysBetweenDates` on raw inputs, where
`none` models an input string that fails to parse (`moment(s)` invalid).
An invalid moment makes `diff` return `NaN`; `NaN < 0` is `false`, so the
`while` loop exits at once and the empty array is returned — the function
never throws, despite its own `@throws` doc comment. -/
def enumerateDaysBetweenDatesRaw : Option Int → Option Int → List Int
  | some s, some e => enumerateDaysBetweenDates s e
  | none, _ => []
  | some _, none => []

/-- Ascending run of `n` consecutive integers starting at `s`
(structural normal form of the enumeration loop). -/
def rangeList (s : Int) : Nat → List Int
  | 0 => []
  | n + 1 => s :: rangeList (s + 1) n

theorem enumDaysLoop_eq_rangeList_aux :
    ∀ (n : Nat) (curr last : Int), (last - curr - 1).toNat = n →
      enumDaysLoop curr last = rangeList (curr + 1) n := by
  intro n
  induction n with
  | zero =>
    intro curr last h
    unfold enumDaysLoop
    rw [if_neg (by omega)]
    rfl
  | succ n ih =>
    intro curr last h
    unfold enumDaysLoop
    rw [if_pos (by omega)]
    show (curr + 1) :: enumDaysLoop (curr + 1) last = (curr + 1) :: rangeList (curr + 1 + 1) n
    rw [ih (curr + 1) last (by omega)]

theorem enumDaysLoop_eq_rangeList (curr last : Int) :
    enumDaysLoop curr last = rangeList (curr + 1) (last - curr - 1).toNat :=
  enumDaysLoop_eq_rangeList_aux (last - curr - 1).toNat curr last rfl

theorem mem_rangeList {d : Int} :
    ∀ (n : Nat) (s : Int), d ∈ rangeList s n ↔ s ≤ d ∧ d < s + n := by
  intro n
  induction n with
  | zero => intro s; simp [rangeList]
  | succ n ih =>
    intro s
    simp only [rangeList, List.mem_cons, ih (s + 1)]
    omega

theorem length_rangeList : ∀ (n : Nat) (s : Int), (rangeList s n).length = n := by
  intro n
  induction n with
  | zero => intro s; rfl
  | succ n ih => intro s; simp [rangeList, ih (s + 1)]

theorem sorted_rangeList : ∀ (n : Nat) (s : Int), (rangeList s n).Sorted (· < ·) := by
  intro n
  induction n with
  | zero => intro s; simp [rangeList]
  | succ n ih =>
    intro s
    refine List.sorted_cons.mpr ⟨?_, ih (s + 1)⟩
    intro b hb
    have := (mem_rangeList n (s + 1)).mp hb
    omega

theorem enumerateDaysBetweenDates_mem (s e d : Int) :
    d ∈ enumerateDaysBetweenDates s e ↔ s < d ∧ d < e := by
  rw [enumerateDaysBetweenDates, enumDaysLoop_eq_rangeList,
    mem_rangeList]
  omega

theorem enumerateDaysBetweenDates_sorted (s e : Int) :
    (enumerateDaysBetweenDates s e).Sorted (· < ·) := by
  rw [enumerateDaysBetweenDates, enumDaysLoop_eq_rangeList]
  exact sorted_rangeList _ _

theorem enumerateDaysBetweenDates_length (s e : Int) :
    (enumerateDaysBetweenDates s e).length = (e - s - 1).toNat := by
  rw [enumerateDaysBetweenDates, enumDaysLoop_eq_rangeList, length_rangeList]

/-- C7: `enumerateDaysBetweenDates` returns a strictly ascending sequence of
exactly the days strictly between its endpoints, of length the number of whole
days strictly between; on `2021-06-01`/`2021-06-04` it yields
`2021-06-02, 2021-06-03`; same-day and adjacent-day inputs give the empty
list. -/
theorem c7_enumerateDaysBetweenDates_strictly_between :
    (∀ s e : Int,
        (enumerateDaysBetweenDates s e).Sorted (· < ·) ∧
        (∀ d : Int, d ∈ enumerateDaysBetweenDates s e ↔ s < d ∧ d < e) ∧
        (enumerateDaysBetweenDates s e).length = (e - s - 1).toNat ∧
        enumerateDaysBetweenDates s s = [] ∧
        enumerateDaysBetweenDates s (s + 1) = []) ∧
    enumerateDaysBetweenDates (daysFromCivil 2021 6 1) (daysFromCivil 2021 6 4)
      = [(daysFromCivil 2021 6 2 : Nat), (daysFromCivil 2021 6 3 : Nat)] := by
  constructor
  · intro s e
    refine ⟨enumerateDaysBetweenDates_sorted s e,
      fun d => enumerateDaysBetweenDates_mem s e d,
      enumerateDaysBetweenDates_length s e, ?_, ?_⟩
    · have h := enumerateDaysBetweenDates_length s s
      rcases hn : enumerateDaysBetweenDates s s with _ | ⟨a, l⟩
      · rfl
      · rw [hn] at h; simp at h
    · have h := enumerateDaysBetweenDates_length s (s + 1)
      rcases hn : enumerateDaysBetweenDates s (s + 1) with _ | ⟨a, l⟩
      · rfl
      · rw [hn] at h; simp at h
  · rw [enumerateDaysBetweenDates, enumDaysLoop_eq_rangeList]
    decide

/-! ### Day bucketing of `getGitHubData` (getGitHubContributions.js 454–511)

Entities are pairs `(identifier, relevant timestamp in seconds)`; the
relevant timestamp is `created_at` for issues and comments, `submitted_at`
for reviews and `commit.author.date` for commits.  The target timezone and
the zone in which the day keys are rendered (the run uses the same zone for
both) are modelled as a fixed offset `off` in seconds. -/

/-- Calendar day (as a day number) of timestamp `ts`, in the timezone with
offset `off`: the day `moment(ts).tz(timezone)` falls on. -/
def localDay (off ts : Int) : Int := (ts + off).fdiv 86400

/-- The raw key list
`[startDate, ...DateUtils.enumerateDaysBetweenDates(startDate, endDate), endDate]`,
with every element rendered as its calendar day. -/
def keyList (s e : Int) : List Int := s :: enumerateDaysBetweenDates s e ++ [e]

/-- JS object-key semantics of the `reduce` building `fullDataSet`: a
repeated key keeps its first position and is stored only once. -/
def objKeys (l : List Int) : List Int :=
  l.foldl (fun acc d => if d ∈ acc then acc else acc ++ [d]) []

/-- The distinct day keys of `fullDataSet`. -/
def bucketDays (s e : Int) : List Int := objKeys (keyList s e)

/-- One `DayBucket` of the aggregated result. -/
structure DayBucket where
  issues : List (Nat × Int)
  reviews : List (Nat × Int)
  comments : List (Nat × Int)
  commits : List (Nat × Int)
deriving DecidableEq

/-- The `_.each` push loops: entity `x` lands in the bucket for day `d` iff
`moment(x.timestamp).tz(timezone).isSame(d, 'day')`. -/
def bucketize (off d : Int) (es : List (Nat × Int)) : List (Nat × Int) :=
  es.filter fun x => localDay off x.2 == d

/-- The bucketing step of `getGitHubData`: one `DayBucket` per distinct day
key, each holding the entities whose local calendar day matches. -/
def getGitHubDataBuckets (off s e : Int)
    (issues reviews comments commits : List (Nat × Int)) :
    List (Int × DayBucket) :=
  (bucketDays s e).map fun d =>
    (d, ⟨bucketize off d issues, bucketize off d reviews,
         bucketize off d comments, bucketize off d commits⟩)

/-- Number of buckets of `B` whose `sel` component contains entity `x`. -/
def entityBucketCount (B : List (Int × DayBucket))
    (sel : DayBucket → List (Nat × Int)) (x : Nat × Int) : Nat :=
  B.countP fun p => decide (x ∈ sel p.2)

theorem objKeys_aux_mem (d : Int) :
    ∀ (l acc : List Int),
      d ∈ l.foldl (fun acc d => if d ∈ acc then acc else acc ++ [d]) acc ↔
        d ∈ acc ∨ d ∈ l := by
  intro l
  induction l with
  | nil => intro acc; simp
  | cons a l ih =>
    intro acc
    rw [List.foldl_cons, ih]
    by_cases ha : a ∈ acc
    · rw [if_pos ha]
      constructor
      · rintro (h | h)
        · exact Or.inl h
        · exact Or.inr (List.mem_cons_of_mem a h)
      · rintro (h | h)
        · exact Or.inl h
        · rcases List.mem_cons.mp h with h | h
          · exact Or.inl (h ▸ ha)
          · exact Or.inr h
    · rw [if_neg ha]
      simp only [List.mem_append, List.mem_singleton, List.mem_cons]
      tauto

theorem objKeys_aux_nodup :
    ∀ (l acc : List Int), acc.Nodup →
      (l.foldl (fun acc d => if d ∈ acc then acc else acc ++ [d]) acc).Nodup := by
  intro l
  induction l with
  | nil => intro acc h; exact h
  | cons a l ih =>
    intro acc h
    rw [List.foldl_cons]
    by_cases ha : a ∈ acc
    · rw [if_pos ha]; exact ih acc h
    · rw [if_neg ha]
      refine ih (acc ++ [a]) ?_
      simp [List.nodup_append, h, ha]

theorem bucketDays_nodup (s e : Int) : (bucketDays s e).Nodup :=
  objKeys_aux_nodup (keyList s e) [] List.nodup_nil

theorem bucketDays_mem (s e d : Int) (hse : s ≤ e) :
    d ∈ bucketDays s e ↔ s ≤ d ∧ d ≤ e := by
  rw [bucketDays, objKeys, objKeys_aux_mem]
  simp only [List.not_mem_nil, false_or, or_false, keyList, List.mem_cons,
    List.mem_append, List.mem_singleton, enumerateDaysBetweenDates_mem]
  omega

theorem count_bucketize (off s e : Int) (hse : s ≤ e)
    (l : List (Nat × Int)) (x : Nat × Int) :
    ((bucketDays s e).countP fun d => decide (x ∈ bucketize off d l))
      = if x ∈ l ∧ s ≤ localDay off x.2 ∧ localDay off x.2 ≤ e then 1 else 0 := by
  have hmem : ∀ d : Int, x ∈ bucketize off d l ↔ x ∈ l ∧ localDay off x.2 = d := by
    intro d
    simp [bucketize, List.mem_filter]
  by_cases hx : x ∈ l
  · have hcongr : ((bucketDays s e).countP fun d => decide (x ∈ bucketize off d l))
        = (bucketDays s e).count (localDay off x.2) := by
      rw [List.count]
      refine List.countP_congr ?_
      intro d _
      simp only [decide_eq_true_eq, beq_iff_eq, hmem d, hx, true_and]
      exact eq_comm
    rw [hcongr]
    by_cases hd : s ≤ localDay off x.2 ∧ localDay off x.2 ≤ e
    · rw [if_pos ⟨hx, hd⟩]
      exact List.count_eq_one_of_mem (bucketDays_nodup s e)
        ((bucketDays_mem s e _ hse).mpr hd)
    · rw [if_neg (by tauto)]
      refine List.count_eq_zero_of_not_mem ?_
      rw [bucketDays_mem s e _ hse]
      tauto
  · rw [if_neg (by tauto)]
    rw [List.countP_eq_zero]
    intro d _
    simp [hmem d, hx]

theorem entityBucketCount_issues (off s e : Int) (hse : s ≤ e)
    (issues reviews comments commits : List (Nat × Int)) (x : Nat × Int) :
    entityBucketCount (getGitHubDataBuckets off s e issues reviews comments commits)
        DayBucket.issues x
      = if x ∈ issues ∧ s ≤ localDay off x.2 ∧ localDay off x.2 ≤ e then 1 else 0 := by
  rw [entityBucketCount, getGitHubDataBuckets, List.countP_map]
  exact count_bucketize off s e hse issues x

theorem entityBucketCount_reviews (off s e : Int) (hse : s ≤ e)
    (issues reviews comments commits : List (Nat × Int)) (x : Nat × Int) :
    entityBucketCount (getGitHubDataBuckets off s e issues reviews comments commits)
        DayBucket.reviews x
      = if x ∈ reviews ∧ s ≤ localDay off x.2 ∧ localDay off x.2 ≤ e then 1 else 0 := by
  rw [entityBucketCount, getGitHubDataBuckets, List.countP_map]
  exact count_bucketize off s e hse reviews x

theorem entityBucketCount_comments (off s e : Int) (hse : s ≤ e)
    (issues reviews comments commits : List (Nat × Int)) (x : Nat × Int) :
    entityBucketCount (getGitHubDataBuckets off s e issues reviews comments commits)
        DayBucket.comments x
      = if x ∈ comments ∧ s ≤ localDay off x.2 ∧ localDay off x.2 ≤ e then 1 else 0 := by
  rw [entityBucketCount, getGitHubDataBuckets, List.countP_map]
  exact count_bucketize off s e hse comments x

theorem entityBucketCount_commits (off s e : Int) (hse : s ≤ e)
    (issues reviews comments commits : List (Nat × Int)) (x : Nat × Int) :
    entityBucketCount (getGitHubDataBuckets off s e issues reviews comments commits)
        DayBucket.commits x
      = if x ∈ commits ∧ s ≤ localDay off x.2 ∧ localDay off x.2 ≤ e then 1 else 0 := by
  rw [entityBucketCount, getGitHubDataBuckets, List.countP_map]
  exact count_bucketize off s e hse commits x

/-- C1: every fetched entity lands in at most one `DayBucket`, and in exactly
one iff its timestamp's calendar day in the target timezone lies within
`[startDate, endDate]` inclusive; out-of-range entities land in no bucket. -/
theorem c1_bucket_assignment (off s e : Int) (hse : s ≤ e)
    (issues reviews comments commits : List (Nat × Int)) (x : Nat × Int) :
    (entityBucketCount (getGitHubDataBuckets off s e issues reviews comments commits)
        DayBucket.issues x ≤ 1 ∧
      (entityBucketCount (getGitHubDataBuckets off s e issues reviews comments commits)
          DayBucket.issues x = 1 ↔
        x ∈ issues ∧ s ≤ localDay off x.2 ∧ localDay off x.2 ≤ e)) ∧
    (entityBucketCount (getGitHubDataBuckets off s e issues reviews comments commits)
        DayBucket.reviews x ≤ 1 ∧
      (entityBucketCount (getGitHubDataBuckets off s e issues reviews comments commits)
          DayBucket.reviews x = 1 ↔
        x ∈ reviews ∧ s ≤ localDay off x.2 ∧ localDay off x.2 ≤ e)) ∧
    (entityBucketCount (getGitHubDataBuckets off s e issues reviews comments commits)
        DayBucket.comments x ≤ 1 ∧
      (entityBucketCount (getGitHubDataBuckets off s e issues reviews comments commits)
          DayBucket.comments x = 1 ↔
        x ∈ comments ∧ s ≤ localDay off x.2 ∧ localDay off x.2 ≤ e)) ∧
    (entityBucketCount (getGitHubDataBuckets off s e issues reviews comments commits)
        DayBucket.commits x ≤ 1 ∧
      (entityBucketCount (getGitHubDataBuckets off s e issues reviews comments commits)
          DayBucket.commits x = 1 ↔
        x ∈ commits ∧ s ≤ localDay off x.2 ∧ localDay off x.2 ≤ e)) := by
  rw [entityBucketCount_issues off s e hse issues reviews comments commits x,
    entityBucketCount_reviews off s e hse issues reviews comments commits x,
    entityBucketCount_comments off s e hse issues reviews comments commits x,
    entityBucketCount_commits off s e hse issues reviews comments commits x]
  refine ⟨⟨?_, ?_⟩, ⟨?_, ?_⟩, ⟨?_, ?_⟩, ⟨?_, ?_⟩⟩ <;> split <;> simp_all

/-- Witness for C1 at a concrete range and entity set. -/
theorem c1_bucket_assignment_witness :
    (0 : Int) ≤ 1 ∧
    ((entityBucketCount (getGitHubDataBuckets 0 0 1 [(7, 5)] [] [] [])
        DayBucket.issues (7, 5) ≤ 1 ∧
      (entityBucketCount (getGitHubDataBuckets 0 0 1 [(7, 5)] [] [] [])
          DayBucket.issues (7, 5) = 1 ↔
        (7, 5) ∈ [((7 : Nat), (5 : Int))] ∧
          0 ≤ localDay 0 (7, (5 : Int)).2 ∧ localDay 0 (7, (5 : Int)).2 ≤ 1)) ∧
    (entityBucketCount (getGitHubDataBuckets 0 0 1 [(7, 5)] [] [] [])
        DayBucket.reviews (7, 5) ≤ 1 ∧
      (entityBucketCount (getGitHubDataBuckets 0 0 1 [(7, 5)] [] [] [])
          DayBucket.reviews (7, 5) = 1 ↔
        (7, 5) ∈ ([] : List (Nat × Int)) ∧
          0 ≤ localDay 0 (7, (5 : Int)).2 ∧ localDay 0 (7, (5 : Int)).2 ≤ 1)) ∧
    (entityBucketCount (getGitHubDataBuckets 0 0 1 [(7, 5)] [] [] [])
        DayBucket.comments (7, 5) ≤ 1 ∧
      (entityBucketCount (getGitHubDataBuckets 0 0 1 [(7, 5)] [] [] [])
          DayBucket.comments (7, 5) = 1 ↔
        (7, 5) ∈ ([] : List (Nat × Int)) ∧
          0 ≤ localDay 0 (7, (5 : Int)).2 ∧ localDay 0 (7, (5 : Int)).2 ≤ 1)) ∧
    (entityBucketCount (getGitHubDataBuckets 0 0 1 [(7, 5)] [] [] [])
        DayBucket.commits (7, 5) ≤ 1 ∧
      (entityBucketCount (getGitHubDataBuckets 0 0 1 [(7, 5)] [] [] [])
          DayBucket.commits (7, 5) = 1 ↔
        (7, 5) ∈ ([] : List (Nat × Int)) ∧
          0 ≤ localDay 0 (7, (5 : Int)).2 ∧ localDay 0 (7, (5 : Int)).2 ≤ 1))) :=
  ⟨by decide, c1_bucket_assignment 0 0 1 (by decide) [(7, 5)] [] [] [] (7, 5)⟩

/-! ### Gap-range computation of `run` (getGitHubContributions.js 702–720)

Days are modelled by their day-of-month, which is exactly what the code
compares (`Number(date.slice(-2))` takes the last two characters of a
`YYYY-MM-DD` key). -/

/-- One step of the reduce in `run` that partitions the missing days:
`if (!prevSubArray || Number(_.last(prevSubArray).slice(-2)) !== Number(date.slice(-2)) - 1) { acc.push([]); } _.last(acc).push(date);`.
The inner `none` case (an empty previous sub-array) is unreachable: every
sub-array receives a date immediately after being pushed. -/
def gapStep (acc : List (List Nat)) (d : Nat) : List (List Nat) :=
  match acc.getLast? with
  | none => acc ++ [[d]]
  | some prev =>
    match prev.getLast? with
    | none => acc ++ [[d]]
    | some p => if p + 1 = d then acc.dropLast ++ [prev ++ [d]] else acc ++ [[d]]

/-- The `dateRanges` chain of `run`, starting from the month's weekday dates:
`.difference(_.keys(monthTenAMs))` (underscore `difference` keeps the order of
its first argument) followed by the partitioning reduce. -/
def missingWeekdayRuns (weekdays known : List Nat) : List (List Nat) :=
  (weekdays.filter fun d => !(known.contains d)).foldl gapStep []

/-- Number of days of a Gregorian month (`moment(...).daysInMonth()`). -/
def daysInMonth (y m : Nat) : Nat :=
  if m = 2 then (if (y % 4 = 0 ∧ y % 100 ≠ 0) ∨ y % 400 = 0 then 29 else 28)
  else if m = 4 ∨ m = 6 ∨ m = 9 ∨ m = 11 then 30
  else 31

/-- The weekday dates of a month, as built in `run`:
`Array.from({length: daysInMonth}, (_, i) => i + 1)` mapped to dates and
filtered by `DateUtils.isWeekday`. -/
def monthWeekdayDates (y m : Nat) : List Nat :=
  (List.range' 1 (daysInMonth y m)).filter fun d => isWeekday (daysFromCivil y m d)

/-- The full `dateRanges` value computed by `run` for one month. -/
def dateRangesForMonth (y m : Nat) (known : List Nat) : List (List Nat) :=
  missingWeekdayRuns (monthWeekdayDates y m) known

/-- Boundary condition between two adjacent runs in the partition: the first
day of the second run must not directly follow the last day of the first. -/
def runBoundary (r s : List Nat) : Prop :=
  ∀ p, r.getLast? = some p → ∀ q, s.head? = some q → p + 1 ≠ q

theorem gapStep_of_getLast_none {acc : List (List Nat)} (d : Nat)
    (h : acc.getLast? = none) : gapStep acc d = acc ++ [[d]] := by
  unfold gapStep
  rw [h]

theorem gapStep_extend {acc : List (List Nat)} {prev : List Nat} {p d : Nat}
    (h1 : acc.getLast? = some prev) (h2 : prev.getLast? = some p)
    (h3 : p + 1 = d) : gapStep acc d = acc.dropLast ++ [prev ++ [d]] := by
  unfold gapStep
  rw [h1]
  show (match prev.getLast? with
    | none => acc ++ [[d]]
    | some p => if p + 1 = d then acc.dropLast ++ [prev ++ [d]] else acc ++ [[d]]) =
      acc.dropLast ++ [prev ++ [d]]
  rw [h2]
  exact if_pos h3

theorem gapStep_newRun {acc : List (List Nat)} {prev : List Nat} {p d : Nat}
    (h1 : acc.getLast? = some prev) (h2 : prev.getLast? = some p)
    (h3 : ¬ p + 1 = d) : gapStep acc d = acc ++ [[d]] := by
  unfold gapStep
  rw [h1]
  show (match prev.getLast? with
    | none => acc ++ [[d]]
    | some p => if p + 1 = d then acc.dropLast ++ [prev ++ [d]] else acc ++ [[d]]) =
      acc ++ [[d]]
  rw [h2]
  exact if_neg h3

/-- Invariants of the partitioning fold: concatenating the runs gives back the
input list; every run is non-empty and consists of consecutive days; adjacent
runs are separated by a genuine gap. -/
theorem gapFold_props (l : List Nat) :
    (l.foldl gapStep []).flatten = l ∧
    (∀ r ∈ l.foldl gapStep [], r ≠ [] ∧ r.Chain' (fun a b => a + 1 = b)) ∧
    (l.foldl gapStep []).Chain' runBoundary := by
  induction l using List.reverseRecOn with
  | nil => simp
  | append_singleton l d ih =>
    obtain ⟨hflat, hruns, hbound⟩ := ih
    rw [List.foldl_append, List.foldl_cons, List.foldl_nil]
    rcases hlast : (l.foldl gapStep []).getLast? with _ | prev
    · -- the accumulator is empty, hence so is the processed prefix
      have hnil : l.foldl gapStep [] = [] := List.getLast?_eq_none_iff.mp hlast
      have hl : l = [] := by rw [← hflat, hnil]; rfl
      rw [gapStep_of_getLast_none d hlast, hnil, hl]
      refine ⟨rfl, ?_, ?_⟩
      · intro r hr
        simp only [List.nil_append, List.mem_singleton] at hr
        subst hr
        exact ⟨by simp, by simp⟩
      · simp
    · have hprevmem : prev ∈ l.foldl gapStep [] := List.mem_of_getLast?_eq_some hlast
      have hprevne : prev ≠ [] := (hruns prev hprevmem).1
      rcases hplast : prev.getLast? with _ | p
      · exact absurd (List.getLast?_eq_none_iff.mp hplast) hprevne
      by_cases hpd : p + 1 = d
      · -- extend the last run
        obtain ⟨acc', hacc'⟩ := List.getLast?_eq_some_iff.mp hlast
        rw [gapStep_extend hlast hplast hpd, hacc', List.dropLast_concat]
        have hflat' : acc'.flatten ++ prev = l := by
          rw [← hflat, hacc']; simp
        refine ⟨?_, ?_, ?_⟩
        · simp only [List.flatten_append, List.flatten_cons, List.flatten_nil,
            List.append_nil, ← List.append_assoc, hflat']
        · intro r hr
          rcases List.mem_append.mp hr with hr' | hr'
          · exact hruns r (by rw [hacc']; exact List.mem_append_left _ hr')
          · simp only [List.mem_singleton] at hr'
            subst hr'
            refine ⟨by simp, ?_⟩
            refine List.Chain'.append (hruns prev hprevmem).2 (by simp) ?_
            intro x hx y hy
            simp only [List.head?_cons, Option.mem_def, Option.some.injEq] at hy
            rw [hplast] at hx
            simp only [Option.mem_def, Option.some.injEq] at hx
            omega
        · have hb' : (acc' ++ [prev]).Chain' runBoundary := by rw [← hacc']; exact hbound
          rw [List.chain'_append] at hb' ⊢
          refine ⟨hb'.1, by simp, ?_⟩
          intro x hx y hy
          simp only [List.head?_cons, Option.mem_def, Option.some.injEq] at hy
          subst hy
          intro p' hp' q hq
          rcases prev with _ | ⟨p0, prest⟩
          · exact absurd rfl hprevne
          simp only [List.cons_append, List.head?_cons, Option.some.injEq] at hq
          exact hb'.2.2 x hx (p0 :: prest) (by simp) p' hp' q (by simp [hq])
      · -- start a new run
        rw [gapStep_newRun hlast hplast hpd]
        refine ⟨by simp [hflat], ?_, ?_⟩
        · intro r hr
          rcases List.mem_append.mp hr with hr' | hr'
          · exact hruns r hr'
          · simp only [List.mem_singleton] at hr'
            subst hr'
            exact ⟨by simp, by simp⟩
        · rw [List.chain'_append]
          refine ⟨hbound, by simp, ?_⟩
          intro x hx y hy
          simp only [List.head?_cons, Option.mem_def, Option.some.injEq] at hy
          subst hy
          rw [hlast] at hx
          simp only [Option.mem_def, Option.some.injEq] at hx
          subst hx
          intro p' hp' q hq
          rw [hplast] at hp'
          simp only [Option.some.injEq] at hp'
          simp only [List.head?_cons, Option.some.injEq] at hq
          omega

/-- C9: the gap-range computation produces the order-preserving set
difference weekdays − knownDays partitioned into maximal contiguous runs
(non-empty runs of consecutive day-of-month values, with a genuine gap
between adjacent runs); the result is ascending whenever the weekday list
is; on the month's weekday enumeration it is always ascending; and it
returns `[[3]]` for known days {1,2,4} over weekdays 1..4, and one run
covering all of {1,2,3} for no known days. -/
theorem c9_gap_ranges :
    (∀ weekdays known : List Nat,
        (missingWeekdayRuns weekdays known).flatten
            = weekdays.filter (fun d => !(known.contains d)) ∧
        (∀ r ∈ missingWeekdayRuns weekdays known,
            r ≠ [] ∧ r.Chain' (fun a b => a + 1 = b)) ∧
        (missingWeekdayRuns weekdays known).Chain' runBoundary ∧
        (weekdays.Sorted (· < ·) →
          ((missingWeekdayRuns weekdays known).flatten).Sorted (· < ·))) ∧
    (∀ (y m : Nat) (known : List Nat),
        ((dateRangesForMonth y m known).flatten).Sorted (· < ·)) ∧
    missingWeekdayRuns [1, 2, 3, 4] [1, 2, 4] = [[3]] ∧
    missingWeekdayRuns [1, 2, 3] [] = [[1, 2, 3]] := by
  have key : ∀ weekdays known : List Nat,
      (missingWeekdayRuns weekdays known).flatten
          = weekdays.filter (fun d => !(known.contains d)) ∧
      (∀ r ∈ missingWeekdayRuns weekdays known,
          r ≠ [] ∧ r.Chain' (fun a b => a + 1 = b)) ∧
      (missingWeekdayRuns weekdays known).Chain' runBoundary ∧
      (weekdays.Sorted (· < ·) →
        ((missingWeekdayRuns weekdays known).flatten).Sorted (· < ·)) := by
    intro weekdays known
    unfold missingWeekdayRuns
    obtain ⟨hflat, hruns, hbound⟩ :=
      gapFold_props (weekdays.filter fun d => !(known.contains d))
    refine ⟨hflat, hruns, hbound, ?_⟩
    intro hsorted
    rw [hflat]
    exact hsorted.sublist (List.filter_sublist _)
  refine ⟨key, ?_, by decide, by decide⟩
  intro y m known
  have := (key (monthWeekdayDates y m) known).2.2.2
  refine this ?_
  exact (List.pairwise_lt_range' 1 (daysInMonth y m)).sublist (List.filter_sublist _)

/-! ### Commit → associated-PR stage of `getGitHubData` (lines 422–446) -/

/-- A pull request returned by `listPullRequestsAssociatedWithCommit`
(only the fields the stage reads). -/
structure AssociatedPR where
  user : List Char
  title : List Char
deriving DecidableEq

/-- A commit after the enrichment step. -/
structure CommitWithPRs where
  sha : List Char
  associatedPullRequests : List AssociatedPR
deriving DecidableEq

/-- The commit stage of `getGitHubData`: each fetched commit (its sha paired
with the PR list the API returned for it) keeps only the PRs whose
`user.login` is the queried username
(`associatedPullRequests: _.filter(data, pr => pr.user.login === username)`),
and then `_.filter(..., commit => !_.isEmpty(commit.associatedPullRequests))`
drops the commits left with no PR. -/
def commitPRStage (username : List Char)
    (fetched : List (List Char × List AssociatedPR)) : List CommitWithPRs :=
  (fetched.map fun p =>
      CommitWithPRs.mk p.1 (p.2.filter fun pr => pr.user == username)).filter
    fun c => !c.associatedPullRequests.isEmpty

theorem filter_isEmpty_eq_not_any (q : α → Bool) (l : List α) :
    (l.filter q).isEmpty = !(l.any q) := by
  induction l with
  | nil => rfl
  | cons a l ih =>
    by_cases h : q a = true
    · simp [List.filter_cons, h]
    · simp only [Bool.not_eq_true] at h
      simp [List.filter_cons, h, ih]

/-- C4: a commit survives the stage iff at least one of its associated PRs is
authored by the queried user; survivors carry exactly the user-authored PRs,
and commits with none are dropped. -/
theorem c4_commit_retention (username : List Char)
    (fetched : List (List Char × List AssociatedPR)) :
    commitPRStage username fetched
        = (fetched.filter fun p => p.2.any fun pr => pr.user == username).map
            (fun p => CommitWithPRs.mk p.1 (p.2.filter fun pr => pr.user == username)) ∧
    ∀ c ∈ commitPRStage username fetched,
      c.associatedPullRequests ≠ [] ∧
        ∀ pr ∈ c.associatedPullRequests, pr.user = username := by
  have hmain : commitPRStage username fetched
      = (fetched.filter fun p => p.2.any fun pr => pr.user == username).map
          (fun p => CommitWithPRs.mk p.1 (p.2.filter fun pr => pr.user == username)) := by
    rw [commitPRStage, List.filter_map]
    refine congrArg _ (List.filter_congr ?_)
    intro p _
    simp only [Function.comp_apply, filter_isEmpty_eq_not_any, Bool.not_not]
  refine ⟨hmain, ?_⟩
  intro c hc
  rw [hmain] at hc
  obtain ⟨p, hp, hpc⟩ := List.mem_map.mp hc
  have hpany := (List.mem_filter.mp hp).2
  constructor
  · intro hnil
    rw [← hpc] at hnil
    simp only [CommitWithPRs.mk.injEq] at hnil
    have := List.filter_eq_nil_iff.mp hnil
    obtain ⟨pr, hpr, hpru⟩ := List.any_eq_true.mp hpany
    exact this pr hpr hpru
  · intro pr hpr
    rw [← hpc] at hpr
    have := (List.mem_filter.mp hpr).2
    exact beq_iff_eq.mp this

/-! ### Review-resolution stage of `getGitHubData` (lines 394–420; the
failure path is the `.catch` at lines 513–516, which logs and `exit(1)`s) -/

/-- JS `review.html_url.replace(/#.*$/, '')`: the regex (no `s`/`m` flags,
so `.` excludes `\n` and `$` is end of input) matches at the leftmost `#`
that has no newline after it, and the match runs to the end of the string;
replacing it with `''` truncates the string there.  On URLs this strips the
fragment. -/
def stripFragment : List Char → List Char
  | [] => []
  | c :: rest =>
    if (c == '#') && !(rest.contains '\n') then [] else c :: stripFragment rest

/-- Only the fields of a reviewed PR (from Query B) that this stage reads. -/
structure ReviewedPR where
  html_url : List Char
  title : List Char
deriving DecidableEq

/-- A timeline event (`event` field, `user.login`, `html_url`). -/
structure TimelineEvent where
  event : List Char
  user : List Char
  html_url : List Char
deriving DecidableEq

/-- A review event with the parent PR's title attached (`review.prTitle`). -/
structure ResolvedReview where
  review : TimelineEvent
  prTitle : List Char
deriving DecidableEq

/-- `_.map` where the callback may throw, modelled as `none`: the first
throw aborts the whole map (and, through the promise chain, the run). -/
def mapOption (f : α → Option β) : List α → Option (List β)
  | [] => some []
  | a :: l =>
    match f a with
    | none => none
    | some b =>
      match mapOption f l with
      | none => none
      | some bs => some (b :: bs)

/-- Outcome of a stage of `getGitHubData`: `fatal` is the `.catch` branch
that logs the error and calls `exit(1)`. -/
inductive StageOutcome (α : Type) where
  | fatal
  | ok (value : α)
deriving DecidableEq

/-- The `event === 'reviewed'` literal. -/
def reviewedKind : List Char := "reviewed".toList

/-- The review-resolution stage: keep the user's `reviewed` timeline events,
then for each one look up its parent PR in the Query B results by exact URL
(fragment stripped): `let pr = _.find(reviewedPRs, reviewedPR =>
reviewedPR.html_url === url); review.prTitle = pr.title;`.  When `_.find`
returns `undefined`, `pr.title` throws a `TypeError`, which the promise
chain's `.catch` converts into a fatal `exit(1)`. -/
def reviewStage (username : List Char) (reviewedPRs : List ReviewedPR)
    (events : List TimelineEvent) : StageOutcome (List ResolvedReview) :=
  match mapOption (fun r =>
      (reviewedPRs.find? fun pr => pr.html_url == stripFragment r.html_url).map
        fun pr => ResolvedReview.mk r pr.title)
    (events.filter fun ev => ev.event == reviewedKind && ev.user == username) with
  | none => StageOutcome.fatal
  | some rs => StageOutcome.ok rs

theorem mapOption_eq_none_of_mem {f : α → Option β} :
    ∀ {l : List α} {a : α}, a ∈ l → f a = none → mapOption f l = none := by
  intro l
  induction l with
  | nil => intro a ha; exact absurd ha (List.not_mem_nil a)
  | cons b l ih =>
    intro a ha hfa
    rcases List.mem_cons.mp ha with h | h
    · subst h
      unfold mapOption
      rw [hfa]
    · unfold mapOption
      rcases hfb : f b with _ | v
      · rfl
      · rw [ih h hfa]

/-- C5: a kept `reviewed` event whose URL (fragment stripped) matches no
fetched reviewed PR makes the whole stage end in the fatal `exit(1)` path —
it is neither dropped nor emitted without a resolved parent PR title. -/
theorem c5_missing_parent_pr_is_fatal (username : List Char)
    (reviewedPRs : List ReviewedPR) (events : List TimelineEvent)
    (ev : TimelineEvent) (hev : ev ∈ events)
    (hkind : ev.event = reviewedKind) (huser : ev.user = username)
    (hnomatch : ∀ pr ∈ reviewedPRs, pr.html_url ≠ stripFragment ev.html_url) :
    reviewStage username reviewedPRs events = StageOutcome.fatal ∧
    ∀ rs : List ResolvedReview,
      reviewStage username reviewedPRs events ≠ StageOutcome.ok rs := by
  have hkept : ev ∈ events.filter fun e => e.event == reviewedKind && e.user == username := by
    refine List.mem_filter.mpr ⟨hev, ?_⟩
    simp [hkind, huser]
  have hfind : (reviewedPRs.find? fun pr => pr.html_url == stripFragment ev.html_url)
      = none := by
    rw [List.find?_eq_none]
    intro pr hpr
    simp only [beq_iff_eq]
    exact hnomatch pr hpr
  have hfatal : reviewStage username reviewedPRs events = StageOutcome.fatal := by
    rw [reviewStage, mapOption_eq_none_of_mem hkept (by rw [hfind]; rfl)]
  exact ⟨hfatal, fun rs h => by rw [hfatal] at h; exact StageOutcome.noConfusion h⟩

/-- Witness for C5: one kept review event over an empty reviewed-PR set. -/
theorem c5_missing_parent_pr_is_fatal_witness :
    reviewStage ("octocat".toList) []
        [TimelineEvent.mk ("reviewed".toList) ("octocat".toList)
          ("https://github.com/Expensify/App/pull/1#pullrequestreview-9".toList)]
      = StageOutcome.fatal ∧
    ∀ rs : List ResolvedReview,
      reviewStage ("octocat".toList) []
          [TimelineEvent.mk ("reviewed".toList) ("octocat".toList)
            ("https://github.com/Expensify/App/pull/1#pullrequestreview-9".toList)]
        ≠ StageOutcome.ok rs :=
  c5_missing_parent_pr_is_fatal ("octocat".toList) []
    [TimelineEvent.mk ("reviewed".toList) ("octocat".toList)
      ("https://github.com/Expensify/App/pull/1#pullrequestreview-9".toList)]
    (TimelineEvent.mk ("reviewed".toList) ("octocat".toList)
      ("https://github.com/Expensify/App/pull/1#pullrequestreview-9".toList))
    (List.mem_singleton.mpr rfl) rfl rfl
    (fun pr hpr => absurd hpr (List.not_mem_nil pr))

/-! ### `throttledPromiseAll` (throttledPromiseAll.js 10–17)

`async function throttledPromiseAll (promises, additionalThrottling = 0)`
receives an **array of promises**.  In JavaScript the array literal at the
call site (getGitHubContributions.js 358–372) is evaluated before the call,
and each element expression `octokit.paginate(...)` starts its request the
moment it is evaluated — promises are eager.  Completions are delivered only
on later event-loop turns, after the synchronous call-site evaluation has
finished.  The function body then merely awaits the already-running promises
in order, sleeping `additionalThrottling` ms after observing each result. -/

/-- Events of a call `throttledPromiseAll([p 0, …, p (n-1)], d)`:
`start i` = operation `i` begins its request; `complete i` = operation `i`'s
result is observed by the `await` loop (its completion is no later than
this); `delay d` = the `setTimeout` sleep. -/
inductive PromiseEvent where
  | start (i : Nat)
  | complete (i : Nat)
  | delay (ms : Nat)
deriving DecidableEq

/-- Event trace of the call site plus the body of `throttledPromiseAll`:
all `n` operations start during evaluation of the argument array, before the
loop observes any completion. -/
def throttledPromiseAllCallTrace (n d : Nat) : List PromiseEvent :=
  ((List.range n).map PromiseEvent.start) ++
    (List.range n).foldr
      (fun i acc => PromiseEvent.complete i :: PromiseEvent.delay d :: acc) []

/-- C2 is false of the code: in the trace of the four top-level search
queries, every operation has started before any operation completes — the
second query starts before the first completes, and all four are in flight
together — so `throttledPromiseAll` does not sequence operation starts. -/
theorem c2_all_queries_start_before_any_completes :
    ((throttledPromiseAllCallTrace 4 500).indexOf (PromiseEvent.start 1)
        < (throttledPromiseAllCallTrace 4 500).indexOf (PromiseEvent.complete 0)) ∧
    ∀ i ∈ [0, 1, 2, 3], ∀ j ∈ [0, 1, 2, 3],
      (throttledPromiseAllCallTrace 4 500).indexOf (PromiseEvent.start j)
        < (throttledPromiseAllCallTrace 4 500).indexOf (PromiseEvent.complete i) := by
  decide

/-! ### Rate-limit retries and the output write of `run`
(getGitHubContributions.js 311–332 and 688–774) -/

/-- `onRateLimit` retry decision: `if (options.request.retryCount <= 5) …
return true`; a larger retry count returns `undefined` (no retry). -/
def onRateLimitRetry (retryCount : Nat) : Bool := retryCount ≤ 5

/-- The shared delay update performed on each rate-limit retry:
`searchThrottle = 500 + (options.request.retryCount * 1000)`. -/
def searchThrottleAfter (retryCount : Nat) : Nat := 500 + retryCount * 1000

/-- Whether a request that receives `limited` consecutive rate-limit
responses eventually succeeds under the throttling plugin: after each
rate-limited attempt the plugin consults `onRateLimit` with the current
retry count and retries only on `true`. -/
def rateLimitedRequestSucceeds : Nat → Nat → Bool
  | 0, _ => true
  | limited + 1, retryCount =>
    if onRateLimitRetry retryCount then
      rateLimitedRequestSucceeds limited (retryCount + 1)
    else
      false

/-- Events of `run` in single-date / date-range mode. -/
inductive RunEvent where
  | write (content : List Char)
  | outputAppended (content : List Char)
  | exitNonZero
deriving DecidableEq

/-- `run` in single-date / date-range mode (the `else` branch at lines
757–771 plus `writeFileSync` at 773): `getGitHubData(...)` is started and a
`.then` callback registered, but the promise is **not awaited**, so
`writeFileSync(argv.outputFile, output)` runs synchronously while `output`
is still `''`.  Only afterwards does the promise settle: on success the
callback appends the formatted data to the (already written-out) local
`output` variable; on failure the `.catch` inside `getGitHubData` logs and
calls `exit(1)`.  `limited` is the number of consecutive rate-limit
responses the slowest search query receives, `formatted` the text the
callback would append. -/
def runDateMode (limited : Nat) (formatted : List Char) : List RunEvent :=
  RunEvent.write [] ::
    (if rateLimitedRequestSucceeds limited 0 then
      [RunEvent.outputAppended formatted]
    else
      [RunEvent.exitNonZero])

/-- C10: in single-date / date-range mode the file is written before the
GitHub data promise settles, so the single write always carries the empty
string, whatever the API returns. -/
theorem c10_date_mode_writes_empty_file (limited : Nat) (formatted : List Char) :
    (runDateMode limited formatted).head? = some (RunEvent.write []) ∧
    (∀ s, RunEvent.write s ∈ runDateMode limited formatted → s = []) ∧
    (runDateMode limited formatted).countP
        (fun e => match e with | RunEvent.write _ => true | _ => false) = 1 := by
  refine ⟨rfl, ?_, ?_⟩
  · intro s hs
    rw [runDateMode] at hs
    rcases List.mem_cons.mp hs with h | h
    · injection h with h'
    · rcases hb : rateLimitedRequestSucceeds limited 0 <;> rw [hb] at h <;> simp at h
  · rw [runDateMode]
    rcases rateLimitedRequestSucceeds limited 0 <;> simp [List.countP_cons]

/-- C6 is violated in date mode: a request rate-limited more than six times
exhausts the retry ceiling (`onRateLimitRetry 6 = false`), the run does
terminate with `exit(1)`, but an output file has already been written — the
empty-string write precedes the fatal exit in the trace. -/
theorem c6_fatal_exit_but_file_already_written :
    onRateLimitRetry 6 = false ∧
    rateLimitedRequestSucceeds 7 0 = false ∧
    runDateMode 7 [] = [RunEvent.write [], RunEvent.exitNonZero] ∧
    RunEvent.exitNonZero ∈ runDateMode 7 [] ∧
    RunEvent.write [] ∈ runDateMode 7 [] := by
  decide

/-! ### `parseTenAMData` (getGitHubContributions.js 525–600; vocabularies
from CONST.js)

JS strings are `List Char`; JS objects keyed by strings are association
lists with JS property-assignment semantics (`objSet`, `objAppend`). -/

/-- `CONST.YEARS`. -/
def YEARS : List (List Char) := ["2019".toList, "2020".toList, "2021".toList]

/-- `CONST.MONTHS`. -/
def MONTHS : List (List Char) :=
  ["January".toList, "February".toList, "March".toList, "April".toList,
   "May".toList, "June".toList, "July".toList, "August".toList,
   "September".toList, "October".toList, "November".toList, "December".toList]

/-- `CONST.MONTHS_3_DIGIT`. -/
def MONTHS3 : List (List Char) :=
  ["JAN".toList, "FEB".toList, "MAR".toList, "APR".toList, "MAY".toList,
   "JUN".toList, "JUL".toList, "AUG".toList, "SEP".toList, "OCT".toList,
   "NOV".toList, "DEC".toList]

/-- `CONST.WEEKDAYS` — Monday through Friday only. -/
def WEEKDAYS : List (List Char) :=
  ["MONDAY".toList, "TUESDAY".toList, "WEDNESDAY".toList, "THURSDAY".toList,
   "FRIDAY".toList]

/-- JS `String.split` on the regex `(tok1|tok2|…)\n` (the year pass and the
month pass both have this shape): scan left to right; each delimiter
occurrence contributes its captured token (without the `\n`) between the
surrounding content pieces, and empty content pieces are kept, exactly as JS
`split` with a capturing group does.  The fuel bounds the number of steps;
`length + 1` always suffices because every step consumes at least one
character. -/
def splitTokNlGo (toks : List (List Char)) :
    Nat → List Char → List Char → List (List Char)
  | 0, acc, s => [acc.reverse ++ s]
  | fuel + 1, acc, s =>
    match s with
    | [] => [acc.reverse]
    | c :: rest =>
      match toks.find? (fun t => (t ++ ['\n']).isPrefixOf (c :: rest)) with
      | some t =>
        acc.reverse :: t ::
          splitTokNlGo toks fuel [] ((c :: rest).drop (t.length + 1))
      | none => splitTokNlGo toks fuel (c :: acc) rest

def splitTokNl (toks : List (List Char)) (s : List Char) : List (List Char) :=
  splitTokNlGo toks (s.length + 1) [] s

/-- The ordinal suffixes of the day-header regex, in alternation order. -/
def ordinalSuffixes : List (List Char) :=
  ["ST".toList, "ND".toList, "RD".toList, "TH".toList]

/-- Match the day-header regex
`(JAN|…|DEC) (\d+)(?:ST|ND|RD|TH) \d+ (?:MONDAY|…|FRIDAY)` at the current
position; on success return the two captured groups (3-letter month and day
digits) and the rest of the string after the match.  `\d+` is greedy and
followed by a non-digit each time, so the maximal digit run is exact. -/
def matchDayHeader (s : List Char) : Option (List Char × List Char × List Char) :=
  (MONTHS3.find? fun m => m.isPrefixOf s).bind fun m =>
    match s.drop m.length with
    | ' ' :: s1 =>
      let d1 := s1.takeWhile Char.isDigit
      if d1.isEmpty then none
      else
        (ordinalSuffixes.find? fun t => t.isPrefixOf (s1.dropWhile Char.isDigit)).bind
          fun suf =>
            match (s1.dropWhile Char.isDigit).drop suf.length with
            | ' ' :: s3 =>
              let d2 := s3.takeWhile Char.isDigit
              if d2.isEmpty then none
              else
                match s3.dropWhile Char.isDigit with
                | ' ' :: s5 =>
                  (WEEKDAYS.find? fun w => w.isPrefixOf s5).map fun w =>
                    (m, d1, s5.drop w.length)
                | _ => none
            | _ => none
    | _ => none

/-- JS `String.split` on the day-header regex: content pieces alternate with
the two captured groups of each match. -/
def splitDayGo : Nat → List Char → List Char → List (List Char)
  | 0, acc, s => [acc.reverse ++ s]
  | fuel + 1, acc, s =>
    match s with
    | [] => [acc.reverse]
    | c :: rest =>
      match matchDayHeader (c :: rest) with
      | some (m, d, remainder) =>
        acc.reverse :: m :: d :: splitDayGo fuel [] remainder
      | none => splitDayGo fuel (c :: acc) rest

def splitDayHeaders (s : List Char) : List (List Char) :=
  splitDayGo (s.length + 1) [] s

/-- JS property assignment `m[k] = v`: overwrite in place if present,
append otherwise. -/
def objSet (m : List (List Char × α)) (k : List Char) (v : α) :
    List (List Char × α) :=
  if m.any (fun p => p.1 == k) then
    m.map fun p => if p.1 == k then (p.1, v) else p
  else
    m ++ [(k, v)]

/-- JS `m[k] += datum` for a string-valued object. -/
def objAppend (m : List (List Char × List Char)) (k datum : List Char) :
    List (List Char × List Char) :=
  m.map fun p => if p.1 == k then (p.1, p.2 ++ datum) else p

/-- First pass of `parseTenAMData`: split on `(2019|2020|2021)\n` and reduce
into a year-keyed object; a year token opens (or clears) that year's entry,
and every other non-empty piece is appended to the **first** year of
`CONST.YEARS` already present in the accumulator:
`for (let year of CONST.YEARS) { if (_.has(acc, year)) { acc[year] += datum; break; } }`. -/
def annualData (raw : List Char) : List (List Char × List Char) :=
  (splitTokNl YEARS raw).foldl
    (fun acc datum =>
      if datum.isEmpty then acc
      else if YEARS.contains datum then objSet acc datum []
      else
        match YEARS.find? (fun y => acc.any fun p => p.1 == y) with
        | some y => objAppend acc y datum
        | none => acc)
    []

/-- Second pass, applied to one year's text: split on `(January|…)\n` and
reduce with the same first-month-present-wins append rule. -/
def monthObjectFor (data : List Char) : List (List Char × List Char) :=
  (splitTokNl MONTHS data).foldl
    (fun acc datum =>
      if datum.isEmpty then acc
      else if MONTHS.contains datum then objSet acc datum []
      else
        match MONTHS.find? (fun mo => acc.any fun p => p.1 == mo) with
        | some mo => objAppend acc mo datum
        | none => acc)
    []

def monthlyData (annual : List (List Char × List Char)) :
    List (List Char × List (List Char × List Char)) :=
  annual.map fun p => (p.1, monthObjectFor p.2)

def parseDigits (s : List Char) : Option Nat :=
  if s.isEmpty || !(s.all Char.isDigit) then none
  else some (s.foldl (fun acc c => acc * 10 + (c.toNat - 48)) 0)

def pad2 (n : Nat) : List Char :=
  if n < 10 then ['0', Char.ofNat (48 + n)]
  else [Char.ofNat (48 + n / 10), Char.ofNat (48 + n % 10)]

/-- 1-based `MONTHS_3_DIGIT` position of a month token (moment's `MMM`). -/
def month3Num (m3 : List Char) : Option Nat :=
  (MONTHS3.findIdx? (fun t => t == m3)).map (· + 1)

/-- ``moment(`${month3Digit} ${date} ${year}`, 'MMM DD YYYY').format(CONST.DATE_FORMAT_STANDARD)``,
where `year` is the enclosing object key (a 4-digit year string).  An
unparsable input formats as `Invalid date`. -/
def dateStandard (m3 dayDigits year : List Char) : List Char :=
  match month3Num m3, parseDigits dayDigits with
  | some m, some d =>
    if 1 ≤ d ∧ d ≤ 31 then year ++ '-' :: (pad2 m ++ '-' :: pad2 d)
    else "Invalid date".toList
  | _, _ => "Invalid date".toList

def isJsSpace (c : Char) : Bool := c == ' ' || c == '\n' || c == '\t' || c == '\r'

/-- JS `String.trim`. -/
def trimStr (s : List Char) : List Char :=
  ((s.dropWhile isJsSpace).reverse.dropWhile isJsSpace).reverse

/-- underscore `_.chunk(l, 3)`. -/
def chunk3Go : Nat → List α → List (List α)
  | 0, _ => []
  | _ + 1, [] => []
  | fuel + 1, a :: rest => (a :: rest.take 2) :: chunk3Go fuel (rest.drop 2)

def chunk3 (l : List α) : List (List α) := chunk3Go l.length l

/-- The per-month day pass: split on the day-header regex, `_.compact` the
pieces, chunk into `[month3, day, content]` triples and fold them into a
date-keyed object.  A chunk with no third element makes `content.trim()`
throw a `TypeError` (`content` is `undefined`), modelled as `Except.error`. -/
def parseDays (year text : List Char) :
    Except Unit (List (List Char × List Char)) :=
  (chunk3 ((splitDayHeaders text).filter fun p => !p.isEmpty)).foldlM
    (fun memo chunk =>
      match chunk with
      | [m3, d, content] =>
        Except.ok (objSet memo (dateStandard m3 d year) (trimStr content))
      | _ => Except.error ())
    []

/-- `_.map` in the `Except` monad: the first exception aborts the parse. -/
def mapE (f : α → Except Unit β) : List α → Except Unit (List β)
  | [] => Except.ok []
  | a :: l =>
    match f a with
    | Except.error e => Except.error e
    | Except.ok b =>
      match mapE f l with
      | Except.error e => Except.error e
      | Except.ok bs => Except.ok (b :: bs)

/-- `parseTenAMData` minus the file read: the two splitting passes followed
by the nested `_.mapObject` applying the day pass to every month's text. -/
def parseTenAMData (raw : List Char) :
    Except Unit (List (List Char × List (List Char × List (List Char × List Char)))) :=
  mapE (fun ym =>
      match mapE (fun md => (parseDays ym.1 md.2).map fun dm => (md.1, dm)) ym.2 with
      | Except.error e => Except.error e
      | Except.ok months => Except.ok (ym.1, months))
    (monthlyData (annualData raw))

/-- The dump text of claim C3, with the elided part of each year block being
its `January` month header. -/
def claimC3Input : List Char :=
  "2020\nJanuary\nJAN 5TH 2020 (SUNDAY)\ntext\n2021\nJanuary\nJAN 6TH 2021 (WEDNESDAY)\ntext2".toList

/-- The nested mapping the claim says `parseTenAMData` returns on
`claimC3Input`. -/
def claimC3Expected :
    List (List Char × List (List Char × List (List Char × List Char))) :=
  [("2020".toList, [("January".toList, [("2020-01-05".toList, "text".toList)])]),
   ("2021".toList, [("January".toList, [("2021-01-06".toList, "text2".toList)])])]

/-- A dump conforming to what the code actually parses: year blocks in
reverse-chronological order, day headers from the regex vocabulary
(no parentheses, weekday among MONDAY–FRIDAY). -/
def amendedC3Input : List Char :=
  "2021\nJanuary\nJAN 6TH 2021 WEDNESDAY\ntext2\n2020\nJanuary\nJAN 6TH 2020 MONDAY\ntext".toList

def amendedC3Expected :
    List (List Char × List (List Char × List (List Char × List Char))) :=
  [("2021".toList, [("January".toList, [("2021-01-06".toList, "text2".toList)])]),
   ("2020".toList, [("January".toList, [("2020-01-06".toList, "text".toList)])])]

/-- C3 counterexample: on the claim's dump text `parseTenAMData` does not
return the claimed mapping — it throws.  The day-header regex matches
nothing (`(SUNDAY)`/`(WEDNESDAY)` fail on the parenthesis, and `SUNDAY` is
not in `CONST.WEEKDAYS` at all), so the month text survives as a single
chunk with no `content` element, and `content.trim()` raises a `TypeError`;
moreover the `2021` content had already been appended to the `2020` entry,
the first year present in `CONST.YEARS` order. -/
theorem c3_claim_input_throws :
    parseTenAMData claimC3Input = Except.error () ∧
    parseTenAMData claimC3Input ≠ Except.ok claimC3Expected := by
  have h : parseTenAMData claimC3Input = Except.error () := by rfl
  refine ⟨h, ?_⟩
  rw [h]
  exact fun hh => Except.noConfusion hh

/-- C3 amended: on a conforming reverse-chronological dump the parser
returns the claimed nested year → month → day → text mapping. -/
theorem c3_amended_conforming_dump_parses :
    parseTenAMData amendedC3Input = Except.ok amendedC3Expected ∧
    amendedC3Expected.lookup ("2021".toList)
      = some [("January".toList, [("2021-01-06".toList, "text2".toList)])] ∧
    amendedC3Expected.lookup ("2020".toList)
      = some [("January".toList, [("2020-01-06".toList, "text".toList)])] := by
  refine ⟨by rfl, by rfl, by rfl⟩

/-- C8: contrary to the claim and to the function's own `@throws` doc
comment, `enumerateDaysBetweenDates` does not raise on unparsable input: an
invalid moment propagates `NaN` into the loop guard, which is then `false`,
so the empty list is returned normally. -/
theorem c8_enumerateDaysBetweenDates_invalid_input_returns_empty :
    enumerateDaysBetweenDatesRaw none (some (daysFromCivil 2021 6 4)) = [] ∧
    enumerateDaysBetweenDatesRaw (some (daysFromCivil 2021 6 1)) none = [] ∧
    enumerateDaysBetweenDatesRaw none none = [] :=
  ⟨rfl, rfl, rfl⟩
